import Mathlib

/-
Verification of the maglev block-trip scheduling core.

The development shallowly embeds the relational queries of
src/gtfsdb/query.sql over explicit row lists, and models the
block-trip index builder (whose Go implementation is not part of the
sources here) from the design document.  All times are integer seconds
since local midnight, dates are YYYYMMDD naturals, exactly as the
store keeps them.
-/

/-- A stop_times row (trip_id, stop_id, stop_sequence, arrival_time,
departure_time), times in seconds since local midnight. -/
structure StopTime where
  tripId : String
  stopId : String
  stopSequence : Nat
  arrivalTime : Int
  departureTime : Int
deriving DecidableEq, Repr

/-- A trips row: identifier, route, service calendar key and the
optional vehicle block. -/
structure Trip where
  id : String
  routeId : String
  serviceId : String
  blockId : Option String
deriving DecidableEq, Repr

/-- A calendar row: the row id is the service identifier, one weekday
flag per day, validity range as inclusive YYYYMMDD bounds. -/
structure Calendar where
  id : String
  monday : Bool
  tuesday : Bool
  wednesday : Bool
  thursday : Bool
  friday : Bool
  saturday : Bool
  sunday : Bool
  startDate : Nat
  endDate : Nat
deriving DecidableEq, Repr

/-- A calendar_dates row: a per-date exception for one service
(exception_type 1 = added, 2 = removed). -/
structure CalendarDateRow where
  serviceId : String
  date : Nat
  exceptionType : Nat
deriving DecidableEq, Repr

/-- A block_trip_entry row as persisted by the index builder. -/
structure BlockTripEntryRow where
  blockTripIndexId : Nat
  tripId : String
  blockId : String
  serviceId : String
  blockTripSequence : Nat
deriving DecidableEq, Repr

/-- The store contents the embedded queries read. -/
structure Database where
  trips : List Trip
  stopTimes : List StopTime
  calendars : List Calendar
  calendarDates : List CalendarDateRow
  blockTripEntries : List BlockTripEntryRow
deriving DecidableEq, Repr

/-
Generic list machinery: deterministic argmin / argmax selection
(the embedding of ORDER BY key LIMIT 1, resolving key ties by row
order) and a stable insertion sort (the embedding of ORDER BY key
over a whole result set).
-/

/-- First element of the list whose key is minimal; none on the empty
list.  Embeds ORDER BY key ASC LIMIT 1. -/
def selectMinBy {α : Type} {β : Type} [LinearOrder β] (f : α → β) (l : List α) : Option α :=
  l.find? (fun x => l.all (fun y => decide (f x ≤ f y)))

/-- First element of the list whose key is maximal; none on the empty
list.  Embeds ORDER BY key DESC LIMIT 1. -/
def selectMaxBy {α : Type} {β : Type} [LinearOrder β] (f : α → β) (l : List α) : Option α :=
  l.find? (fun x => l.all (fun y => decide (f y ≤ f x)))

theorem selectMinBy_mem {α : Type} {β : Type} [LinearOrder β] {f : α → β} {l : List α} {x : α}
    (h : selectMinBy f l = some x) : x ∈ l :=
  List.mem_of_find?_eq_some h

theorem selectMaxBy_mem {α : Type} {β : Type} [LinearOrder β] {f : α → β} {l : List α} {x : α}
    (h : selectMaxBy f l = some x) : x ∈ l :=
  List.mem_of_find?_eq_some h

theorem selectMinBy_le {α : Type} {β : Type} [LinearOrder β] {f : α → β} {l : List α} {x : α}
    (h : selectMinBy f l = some x) : ∀ y ∈ l, f x ≤ f y := by
  intro y hy
  have hall := List.find?_some h
  have := List.all_eq_true.mp hall y hy
  exact of_decide_eq_true this

theorem selectMaxBy_ge {α : Type} {β : Type} [LinearOrder β] {f : α → β} {l : List α} {x : α}
    (h : selectMaxBy f l = some x) : ∀ y ∈ l, f y ≤ f x := by
  intro y hy
  have hall := List.find?_some h
  have := List.all_eq_true.mp hall y hy
  exact of_decide_eq_true this

theorem exists_min_key {α : Type} {β : Type} [LinearOrder β] (f : α → β) (l : List α)
    (h : l ≠ []) : ∃ x ∈ l, ∀ y ∈ l, f x ≤ f y := by
  induction l with
  | nil => exact absurd rfl h
  | cons a t ih =>
    cases t with
    | nil =>
      refine ⟨a, List.mem_cons_self a [], ?_⟩
      intro y hy
      rcases List.mem_singleton.mp hy with rfl
      exact le_refl _
    | cons b t2 =>
      obtain ⟨m, hm, hmin⟩ := ih (by simp)
      by_cases hc : f a ≤ f m
      · refine ⟨a, List.mem_cons_self a _, ?_⟩
        intro y hy
        rcases List.mem_cons.mp hy with rfl | hy2
        · exact le_refl _
        · exact le_trans hc (hmin y hy2)
      · refine ⟨m, List.mem_cons_of_mem a hm, ?_⟩
        intro y hy
        rcases List.mem_cons.mp hy with rfl | hy2
        · exact le_of_not_le hc
        · exact hmin y hy2

theorem exists_max_key {α : Type} {β : Type} [LinearOrder β] (f : α → β) (l : List α)
    (h : l ≠ []) : ∃ x ∈ l, ∀ y ∈ l, f y ≤ f x := by
  obtain ⟨x, hx, hle⟩ := exists_min_key (β := βᵒᵈ) f l h
  exact ⟨x, hx, hle⟩

theorem selectMinBy_eq_none_iff {α : Type} {β : Type} [LinearOrder β] {f : α → β} {l : List α} :
    selectMinBy f l = none ↔ l = [] := by
  constructor
  · intro h
    by_contra hne
    obtain ⟨m, hm, hmin⟩ := exists_min_key f l hne
    have := List.find?_eq_none.mp h m hm
    exact this (List.all_eq_true.mpr (fun y hy => decide_eq_true (hmin y hy)))
  · intro h
    subst h
    rfl

theorem selectMaxBy_eq_none_iff {α : Type} {β : Type} [LinearOrder β] {f : α → β} {l : List α} :
    selectMaxBy f l = none ↔ l = [] := by
  constructor
  · intro h
    by_contra hne
    obtain ⟨m, hm, hmax⟩ := exists_max_key f l hne
    have := List.find?_eq_none.mp h m hm
    exact this (List.all_eq_true.mpr (fun y hy => decide_eq_true (hmax y hy)))
  · intro h
    subst h
    rfl

/-- Stable insertion of an element into a list already sorted by the
key: the new element goes before the first strictly-later position. -/
def insertByKey {α : Type} {β : Type} [LinearOrder β] (f : α → β) (x : α) : List α → List α
  | [] => [x]
  | y :: ys => if f x ≤ f y then x :: y :: ys else y :: insertByKey f x ys

/-- Stable insertion sort by a key.  Embeds ORDER BY key ASC over a
result set. -/
def sortByKey {α : Type} {β : Type} [LinearOrder β] (f : α → β) : List α → List α
  | [] => []
  | x :: xs => insertByKey f x (sortByKey f xs)

theorem perm_insertByKey {α : Type} {β : Type} [LinearOrder β] (f : α → β) (x : α) (l : List α) :
    List.Perm (insertByKey f x l) (x :: l) := by
  induction l with
  | nil => exact List.Perm.refl _
  | cons y ys ih =>
    by_cases h : f x ≤ f y
    · simp [insertByKey, h]
    · simp only [insertByKey, if_neg h]
      exact List.Perm.trans (List.Perm.cons y ih) (List.Perm.swap x y ys)

theorem perm_sortByKey {α : Type} {β : Type} [LinearOrder β] (f : α → β) (l : List α) :
    List.Perm (sortByKey f l) l := by
  induction l with
  | nil => exact List.Perm.refl _
  | cons x xs ih =>
    exact List.Perm.trans (perm_insertByKey f x (sortByKey f xs)) (List.Perm.cons x ih)

theorem mem_insertByKey {α : Type} {β : Type} [LinearOrder β] {f : α → β} {x z : α} {l : List α} :
    z ∈ insertByKey f x l ↔ z = x ∨ z ∈ l := by
  have := (perm_insertByKey f x l).mem_iff (a := z)
  simpa using this

theorem pairwise_insertByKey {α : Type} {β : Type} [LinearOrder β] {f : α → β} (x : α)
    {l : List α} (h : List.Pairwise (fun a b => f a ≤ f b) l) :
    List.Pairwise (fun a b => f a ≤ f b) (insertByKey f x l) := by
  induction l with
  | nil => simp [insertByKey]
  | cons y ys ih =>
    rcases List.pairwise_cons.mp h with ⟨hy, hys⟩
    by_cases hc : f x ≤ f y
    · simp only [insertByKey, if_pos hc]
      refine List.pairwise_cons.mpr ⟨?_, h⟩
      intro z hz
      rcases List.mem_cons.mp hz with rfl | hz2
      · exact hc
      · exact le_trans hc (hy z hz2)
    · simp only [insertByKey, if_neg hc]
      refine List.pairwise_cons.mpr ⟨?_, ih hys⟩
      intro z hz
      rcases mem_insertByKey.mp hz with rfl | hz2
      · exact le_of_not_le hc
      · exact hy z hz2

theorem pairwise_sortByKey {α : Type} {β : Type} [LinearOrder β] (f : α → β) (l : List α) :
    List.Pairwise (fun a b => f a ≤ f b) (sortByKey f l) := by
  induction l with
  | nil => simp [sortByKey]
  | cons x xs ih => exact pairwise_insertByKey x ih

/-- Pair every element with its 0-based position, starting at i. -/
def withIdx {α : Type} : Nat → List α → List (Nat × α)
  | _, [] => []
  | i, x :: xs => (i, x) :: withIdx (i + 1) xs

theorem withIdx_map_fst {α : Type} (i : Nat) (l : List α) :
    (withIdx i l).map Prod.fst = List.range' i l.length := by
  induction l generalizing i with
  | nil => rfl
  | cons x xs ih => simp [withIdx, List.range'_succ, ih]

theorem withIdx_map_snd {α : Type} (i : Nat) (l : List α) :
    (withIdx i l).map Prod.snd = l := by
  induction l generalizing i with
  | nil => rfl
  | cons x xs ih => simp [withIdx, ih]

theorem withIdx_length {α : Type} (i : Nat) (l : List α) :
    (withIdx i l).length = l.length := by
  induction l generalizing i with
  | nil => rfl
  | cons x xs ih => simp [withIdx, ih]

theorem pairwise_withIdx_snd {α : Type} {R : α → α → Prop} {l : List α} (i : Nat)
    (h : List.Pairwise R l) :
    List.Pairwise (fun p q : Nat × α => R p.2 q.2) (withIdx i l) := by
  have : List.Pairwise R ((withIdx i l).map Prod.snd) := by
    rw [withIdx_map_snd]
    exact h
  exact List.pairwise_map.mp this

/-
Embeddings of the read queries of src/gtfsdb/query.sql.
-/

/-- The stop_times rows of one trip (the join stop_times.trip_id = trips.id). -/
def tripStopTimes (db : Database) (tid : String) : List StopTime :=
  db.stopTimes.filter (fun st => st.tripId = tid)

/-- The stop_time with the minimal stop_sequence of a trip: the
st_first join of GetActiveTripInBlockAtTime / GetActiveTripForRouteAtTime
(stop_sequence = SELECT MIN(stop_sequence)). -/
def stFirst (sts : List StopTime) : Option StopTime :=
  selectMinBy (fun st => st.stopSequence) sts

/-- The stop_time with the maximal stop_sequence of a trip: the
st_last join (stop_sequence = SELECT MAX(stop_sequence)). -/
def stLast (sts : List StopTime) : Option StopTime :=
  selectMaxBy (fun st => st.stopSequence) sts

/-- st_first.departure_time of a trip, the sort key of both
active-trip queries (0 when the trip has no stop times; such trips are
never selected because the st_first join eliminates them). -/
def firstDepOf (db : Database) (tid : String) : Int :=
  match stFirst (tripStopTimes db tid) with
  | some st => st.departureTime
  | none => 0

/-- MIN(st.departure_time) over a trip, as computed by
GetTripsByBlockIDOrdered (0 for a trip with no stop times). -/
def minDepOf (db : Database) (tid : String) : Int :=
  match selectMinBy (fun st => st.departureTime) (tripStopTimes db tid) with
  | some st => st.departureTime
  | none => 0

/-- MAX(st.arrival_time) over a trip, as computed by
GetTripsByBlockIDOrdered (0 for a trip with no stop times). -/
def maxArrOf (db : Database) (tid : String) : Int :=
  match selectMaxBy (fun st => st.arrivalTime) (tripStopTimes db tid) with
  | some st => st.arrivalTime
  | none => 0

/-- The WHERE clause of GetActiveTripInBlockAtTime: the trip belongs
to the block, its service id is in the supplied set, and
st_first.departure_time <= t <= st_last.arrival_time. -/
def matchesInBlock (db : Database) (b : String) (svc : List String) (t0 : Int)
    (t : Trip) : Bool :=
  t.blockId = some b && t.serviceId ∈ svc &&
    (match stFirst (tripStopTimes db t.id), stLast (tripStopTimes db t.id) with
     | some f, some l => f.departureTime ≤ t0 && t0 ≤ l.arrivalTime
     | _, _ => false)

/-- GetActiveTripInBlockAtTime: the matching trips ordered by
st_first.departure_time ASC, LIMIT 1, returning the trip id. -/
def getActiveTripInBlockAtTime (db : Database) (b : String) (svc : List String)
    (t0 : Int) : Option String :=
  (selectMinBy (fun t => firstDepOf db t.id)
      (db.trips.filter (matchesInBlock db b svc t0))).map (fun t => t.id)

/-- The block_trip_entry join of GetActiveTripForRouteAtTime: the trip
has an entry whose index id is in the supplied set and whose service
id is in the active set. -/
def hasQualifyingEntry (db : Database) (indexIds : List Nat) (svc : List String)
    (t : Trip) : Bool :=
  db.blockTripEntries.any
    (fun e => e.tripId = t.id && e.blockTripIndexId ∈ indexIds && e.serviceId ∈ svc)

/-- The WHERE clause of GetActiveTripForRouteAtTime: a qualifying
index entry, the requested route, st_first.departure_time <= currentTime
and st_last.arrival_time >= fromTime. -/
def matchesForRoute (db : Database) (indexIds : List Nat) (route : String)
    (svc : List String) (cur fromT : Int) (t : Trip) : Bool :=
  hasQualifyingEntry db indexIds svc t && t.routeId = route &&
    (match stFirst (tripStopTimes db t.id), stLast (tripStopTimes db t.id) with
     | some f, some l => f.departureTime ≤ cur && fromT ≤ l.arrivalTime
     | _, _ => false)

/-- GetActiveTripForRouteAtTime: the matching trips ordered by
st_first.departure_time DESC, LIMIT 1, returning the trip id. -/
def getActiveTripForRouteAtTime (db : Database) (indexIds : List Nat) (route : String)
    (svc : List String) (cur fromT : Int) : Option String :=
  (selectMaxBy (fun t => firstDepOf db t.id)
      (db.trips.filter (matchesForRoute db indexIds route svc cur fromT))).map (fun t => t.id)

/-- Sakamoto day-of-week offsets for the twelve months. -/
def sakamotoOffsets : List Nat := [0, 3, 2, 5, 0, 3, 5, 1, 4, 6, 2, 4]

/-- Day of week of a Gregorian date, 0 = Sunday, as STRFTIME('%w')
computes it for the formatted YYYY-MM-DD string. -/
def dayOfWeek (y m d : Nat) : Nat :=
  let yy := if m < 3 then y - 1 else y
  (yy + yy / 4 - yy / 100 + yy / 400 + sakamotoOffsets.getD (m - 1) 0 + d) % 7

/-- Day of week of a YYYYMMDD date (the SUBSTR decomposition of the
query parameter). -/
def weekdayOfDate (date : Nat) : Nat :=
  dayOfWeek (date / 10000) (date / 100 % 100) (date % 100)

/-- The weekday-flag disjunction of GetActiveServiceIDsForDate. -/
def weekdayFlagSet (c : Calendar) (w : Nat) : Bool :=
  (w = 0 && c.sunday) || (w = 1 && c.monday) || (w = 2 && c.tuesday) ||
  (w = 3 && c.wednesday) || (w = 4 && c.thursday) || (w = 5 && c.friday) ||
  (w = 6 && c.saturday)

/-- GetActiveServiceIDsForDate: base services (weekday flag set and
start_date <= date <= end_date) minus the removed exceptions
(exception_type = 2), unioned with the added exceptions
(exception_type = 1), deduplicated. -/
def getActiveServiceIDsForDate (db : Database) (date : Nat) : List String :=
  let w := weekdayOfDate date
  let base := (db.calendars.filter
      (fun c => c.startDate ≤ date && date ≤ c.endDate && weekdayFlagSet c w)).map
      (fun c => c.id)
  let removed := (db.calendarDates.filter
      (fun cd => cd.date = date && cd.exceptionType = 2)).map (fun cd => cd.serviceId)
  let added := (db.calendarDates.filter
      (fun cd => cd.date = date && cd.exceptionType = 1)).map (fun cd => cd.serviceId)
  (base.filter (fun s => decide (s ∉ removed)) ++ added).dedup

/-- The closed-window test of GetStopTimesForStopInWindow: arrival or
departure BETWEEN windowStart AND windowEnd. -/
def inWindow (ws we : Int) (st : StopTime) : Bool :=
  (ws ≤ st.arrivalTime && st.arrivalTime ≤ we) ||
  (ws ≤ st.departureTime && st.departureTime ≤ we)

/-- The inner join with trips shared by the stop queries; trip ids are
the trips primary key, so the join keeps a stop_times row exactly when
its trip exists. -/
def hasTrip (db : Database) (st : StopTime) : Bool :=
  db.trips.any (fun t => t.id = st.tripId)

/-- GetStopTimesForStopInWindow: the stop's rows whose arrival or
departure falls in the closed window, joined with trips, ordered by
arrival_time. -/
def getStopTimesForStopInWindow (db : Database) (stop : String) (ws we : Int) :
    List StopTime :=
  sortByKey (fun st => st.arrivalTime)
    (db.stopTimes.filter
      (fun st => st.stopId = stop && (hasTrip db st && inWindow ws we st)))

/-- GetArrivalsAndDeparturesForStop: the stop's rows joined with trips
and routes, ordered by arrival_time, LIMIT 50. -/
def getArrivalsAndDeparturesForStop (db : Database) (stop : String) : List StopTime :=
  (sortByKey (fun st => st.arrivalTime)
    (db.stopTimes.filter (fun st => st.stopId = stop && hasTrip db st))).take 50

/-
Spec-side notions: first-departure and last-arrival as the design
document defines them (minimum departure / maximum arrival over the
trip's stop events), and the stop-time monotonicity invariant the
store guarantees (arrival and departure non-decreasing in
stop_sequence within a trip).
-/

/-- The store invariant on stop_times: within a trip, arrival and
departure times are monotonically non-decreasing in stop_sequence. -/
abbrev SeqMonotone (db : Database) : Prop :=
  ∀ st1 ∈ db.stopTimes, ∀ st2 ∈ db.stopTimes, st1.tripId = st2.tripId →
    st1.stopSequence ≤ st2.stopSequence →
    st1.departureTime ≤ st2.departureTime ∧ st1.arrivalTime ≤ st2.arrivalTime

/-- d is the trip's first-departure: the minimum departure time over
its stop events, attained by one of them. -/
def IsFirstDeparture (db : Database) (tid : String) (d : Int) : Prop :=
  (∃ st ∈ tripStopTimes db tid, st.departureTime = d) ∧
  ∀ st ∈ tripStopTimes db tid, d ≤ st.departureTime

/-- a is the trip's last-arrival: the maximum arrival time over its
stop events, attained by one of them. -/
def IsLastArrival (db : Database) (tid : String) (a : Int) : Prop :=
  (∃ st ∈ tripStopTimes db tid, st.arrivalTime = a) ∧
  ∀ st ∈ tripStopTimes db tid, st.arrivalTime ≤ a

theorem mem_tripStopTimes {db : Database} {tid : String} {st : StopTime} :
    st ∈ tripStopTimes db tid ↔ st ∈ db.stopTimes ∧ st.tripId = tid := by
  simp [tripStopTimes]

theorem stFirst_isFirstDeparture {db : Database} {tid : String} (hm : SeqMonotone db)
    {f : StopTime} (h : stFirst (tripStopTimes db tid) = some f) :
    IsFirstDeparture db tid f.departureTime := by
  have hfmem := selectMinBy_mem h
  refine ⟨⟨f, hfmem, rfl⟩, ?_⟩
  intro st hst
  have hseq := selectMinBy_le h st hst
  have h1 := mem_tripStopTimes.mp hfmem
  have h2 := mem_tripStopTimes.mp hst
  exact (hm f h1.1 st h2.1 (h1.2.trans h2.2.symm) hseq).1

theorem stLast_isLastArrival {db : Database} {tid : String} (hm : SeqMonotone db)
    {l : StopTime} (h : stLast (tripStopTimes db tid) = some l) :
    IsLastArrival db tid l.arrivalTime := by
  have hlmem := selectMaxBy_mem h
  refine ⟨⟨l, hlmem, rfl⟩, ?_⟩
  intro st hst
  have hseq := selectMaxBy_ge h st hst
  have h1 := mem_tripStopTimes.mp hlmem
  have h2 := mem_tripStopTimes.mp hst
  exact (hm st h2.1 l h1.1 (h2.2.trans h1.2.symm) hseq).2

theorem isFirstDeparture_unique {db : Database} {tid : String} {d1 d2 : Int}
    (h1 : IsFirstDeparture db tid d1) (h2 : IsFirstDeparture db tid d2) : d1 = d2 := by
  obtain ⟨⟨s1, hs1, he1⟩, hmin1⟩ := h1
  obtain ⟨⟨s2, hs2, he2⟩, hmin2⟩ := h2
  exact le_antisymm (he2 ▸ hmin1 s2 hs2) (he1 ▸ hmin2 s1 hs1)

theorem isLastArrival_unique {db : Database} {tid : String} {a1 a2 : Int}
    (h1 : IsLastArrival db tid a1) (h2 : IsLastArrival db tid a2) : a1 = a2 := by
  obtain ⟨⟨s1, hs1, he1⟩, hmax1⟩ := h1
  obtain ⟨⟨s2, hs2, he2⟩, hmax2⟩ := h2
  exact le_antisymm (he1 ▸ hmax2 s1 hs1) (he2 ▸ hmax1 s2 hs2)

theorem firstDepOf_eq {db : Database} {tid : String} {d : Int} (hm : SeqMonotone db)
    (h : IsFirstDeparture db tid d) : firstDepOf db tid = d := by
  cases hf : stFirst (tripStopTimes db tid) with
  | none =>
    exfalso
    have hemp : tripStopTimes db tid = [] := selectMinBy_eq_none_iff.mp hf
    obtain ⟨st, hst, _⟩ := h.1
    rw [hemp] at hst
    exact List.not_mem_nil st hst
  | some f =>
    have hIsF := stFirst_isFirstDeparture hm hf
    simp only [firstDepOf, hf]
    exact isFirstDeparture_unique hIsF h

/-- The trip matches FindActiveTripInBlock as the design document
states it: it belongs to the block, its service is active, and
first-departure <= t <= last-arrival. -/
def ActiveInBlockSpec (db : Database) (b : String) (svc : List String) (t0 : Int)
    (t : Trip) : Prop :=
  t.blockId = some b ∧ t.serviceId ∈ svc ∧
    ∃ d a, IsFirstDeparture db t.id d ∧ IsLastArrival db t.id a ∧ d ≤ t0 ∧ t0 ≤ a

theorem matchesInBlock_iff {db : Database} {b : String} {svc : List String} {t0 : Int}
    {t : Trip} (hm : SeqMonotone db) :
    matchesInBlock db b svc t0 t = true ↔ ActiveInBlockSpec db b svc t0 t := by
  cases hf : stFirst (tripStopTimes db t.id) with
  | none =>
    have hemp : tripStopTimes db t.id = [] := selectMinBy_eq_none_iff.mp hf
    simp only [matchesInBlock, hf, Bool.and_eq_true, decide_eq_true_eq]
    constructor
    · rintro ⟨-, hfalse⟩
      exact absurd hfalse (by simp)
    · rintro ⟨-, -, d, a, hd, -, -⟩
      obtain ⟨st, hst, -⟩ := hd.1
      rw [hemp] at hst
      exact absurd hst (List.not_mem_nil st)
  | some f =>
    cases hl : stLast (tripStopTimes db t.id) with
    | none =>
      exfalso
      have hemp : tripStopTimes db t.id = [] := selectMaxBy_eq_none_iff.mp hl
      have := selectMinBy_mem hf
      rw [hemp] at this
      exact List.not_mem_nil f this
    | some l =>
      simp only [matchesInBlock, hf, hl, Bool.and_eq_true, decide_eq_true_eq,
        ActiveInBlockSpec]
      constructor
      · rintro ⟨⟨hb, hsvc⟩, hd, ha⟩
        exact ⟨hb, hsvc, f.departureTime, l.arrivalTime,
          stFirst_isFirstDeparture hm hf, stLast_isLastArrival hm hl, hd, ha⟩
      · rintro ⟨hb, hsvc, d, a, hd, ha, h1, h2⟩
        have hde : f.departureTime = d :=
          isFirstDeparture_unique (stFirst_isFirstDeparture hm hf) hd
        have hae : l.arrivalTime = a :=
          isLastArrival_unique (stLast_isLastArrival hm hl) ha
        exact ⟨⟨hb, hsvc⟩, hde ▸ h1, hae ▸ h2⟩

/-- FindActiveTripInBlock behaves as specified: any returned trip id
names a trip of the block with active service whose
[first-departure, last-arrival] interval contains the query time and
whose first-departure is least among all such trips; when no trip
matches, the query returns none. -/
def ActiveInBlockCorrect (db : Database) (b : String) (svc : List String) (t0 : Int) :
    Prop :=
  (∀ tid, getActiveTripInBlockAtTime db b svc t0 = some tid →
    ∃ t ∈ db.trips, t.id = tid ∧ ActiveInBlockSpec db b svc t0 t ∧
      ∀ u ∈ db.trips, ActiveInBlockSpec db b svc t0 u →
        ∀ d du, IsFirstDeparture db t.id d → IsFirstDeparture db u.id du → d ≤ du) ∧
  ((∀ u ∈ db.trips, ¬ ActiveInBlockSpec db b svc t0 u) →
    getActiveTripInBlockAtTime db b svc t0 = none)

/-- C1: GetActiveTripInBlockAtTime returns a trip only if it belongs
to the block, its service id is active and first-departure <= t <=
last-arrival (minimum departure / maximum arrival over the trip's
stop times); among matching trips it returns one with the earliest
first-departure, and none when no trip matches. -/
theorem getActiveTripInBlockAtTime_correct (db : Database) (b : String)
    (svc : List String) (t0 : Int) (hm : SeqMonotone db) :
    ActiveInBlockCorrect db b svc t0 := by
  constructor
  · intro tid h
    unfold getActiveTripInBlockAtTime at h
    cases hsel : selectMinBy (fun t => firstDepOf db t.id)
        (db.trips.filter (matchesInBlock db b svc t0)) with
    | none => rw [hsel] at h; exact absurd h (by simp)
    | some t =>
      rw [hsel] at h
      have hid : t.id = tid := by simpa using h
      have htmem := selectMinBy_mem hsel
      have hle := selectMinBy_le hsel
      have hfil := List.mem_filter.mp htmem
      refine ⟨t, hfil.1, hid, (matchesInBlock_iff hm).mp hfil.2, ?_⟩
      intro u hu huspec d du hd hdu
      have humatch : matchesInBlock db b svc t0 u = true :=
        (matchesInBlock_iff hm).mpr huspec
      have humem : u ∈ db.trips.filter (matchesInBlock db b svc t0) :=
        List.mem_filter.mpr ⟨hu, humatch⟩
      have hk := hle u humem
      rw [firstDepOf_eq hm hd, firstDepOf_eq hm hdu] at hk
      exact hk
  · intro hnone
    unfold getActiveTripInBlockAtTime
    have hnil : db.trips.filter (matchesInBlock db b svc t0) = [] := by
      apply List.filter_eq_nil_iff.mpr
      intro a ha hmatch
      exact hnone a ha ((matchesInBlock_iff hm).mp hmatch)
    rw [hnil]
    rfl

/-
Concrete scenario data for the block query (block B1, service s1,
trip T1 spanning [28800, 29400], trip T2 spanning [29500, 30300]).
-/

def bB1 : String := "B1"

def sS1 : String := "s1"

def tT1 : String := "T1"

def tT2 : String := "T2"

def rR1 : String := "r1"

def stopX : String := "X"

def stopY : String := "Y"

def dbC1 : Database :=
  { trips := [{ id := tT1, routeId := rR1, serviceId := sS1, blockId := some bB1 },
              { id := tT2, routeId := rR1, serviceId := sS1, blockId := some bB1 }],
    stopTimes :=
      [{ tripId := tT1, stopId := stopX, stopSequence := 1, arrivalTime := 28800,
         departureTime := 28800 },
       { tripId := tT1, stopId := stopY, stopSequence := 2, arrivalTime := 29400,
         departureTime := 29400 },
       { tripId := tT2, stopId := stopX, stopSequence := 1, arrivalTime := 29500,
         departureTime := 29500 },
       { tripId := tT2, stopId := stopY, stopSequence := 2, arrivalTime := 30300,
         departureTime := 30300 }],
    calendars := [], calendarDates := [], blockTripEntries := [] }

/-- Witness for C1: the scenario store satisfies the stop-time
monotonicity invariant, the correctness statement holds on it, and the
query returns T1 at 29000, T2 at 29600 and none at 29450 (the gap
between the two trips). -/
theorem getActiveTripInBlockAtTime_correct_witness :
    SeqMonotone dbC1 ∧ ActiveInBlockCorrect dbC1 bB1 [sS1] 29000 ∧
    getActiveTripInBlockAtTime dbC1 bB1 [sS1] 29000 = some tT1 ∧
    getActiveTripInBlockAtTime dbC1 bB1 [sS1] 29600 = some tT2 ∧
    getActiveTripInBlockAtTime dbC1 bB1 [sS1] 29450 = none :=
  ⟨by decide, getActiveTripInBlockAtTime_correct dbC1 bB1 [sS1] 29000 (by decide),
    by decide, by decide, by decide⟩

/-
FindActiveTripForRoute (GetActiveTripForRouteAtTime).
-/

/-- The trip is reachable through the block-trip index: some entry of
the trip lies in one of the candidate index rows with an active
service id. -/
def CandidateEntry (db : Database) (indexIds : List Nat) (svc : List String)
    (t : Trip) : Prop :=
  ∃ e ∈ db.blockTripEntries,
    e.tripId = t.id ∧ e.blockTripIndexId ∈ indexIds ∧ e.serviceId ∈ svc

theorem hasQualifyingEntry_iff {db : Database} {indexIds : List Nat}
    {svc : List String} {t : Trip} :
    hasQualifyingEntry db indexIds svc t = true ↔ CandidateEntry db indexIds svc t := by
  simp [hasQualifyingEntry, CandidateEntry, List.any_eq_true, and_assoc]

/-- The trip matches FindActiveTripForRoute as the design document
states it: reachable through a candidate index row, on the requested
route, with first-departure <= currentTime and last-arrival >=
fromTime. -/
def ActiveForRouteSpec (db : Database) (indexIds : List Nat) (route : String)
    (svc : List String) (cur fromT : Int) (t : Trip) : Prop :=
  CandidateEntry db indexIds svc t ∧ t.routeId = route ∧
    ∃ d a, IsFirstDeparture db t.id d ∧ IsLastArrival db t.id a ∧ d ≤ cur ∧ fromT ≤ a

theorem matchesForRoute_iff {db : Database} {indexIds : List Nat} {route : String}
    {svc : List String} {cur fromT : Int} {t : Trip} (hm : SeqMonotone db) :
    matchesForRoute db indexIds route svc cur fromT t = true ↔
      ActiveForRouteSpec db indexIds route svc cur fromT t := by
  cases hf : stFirst (tripStopTimes db t.id) with
  | none =>
    have hemp : tripStopTimes db t.id = [] := selectMinBy_eq_none_iff.mp hf
    simp only [matchesForRoute, hf, Bool.and_eq_true, decide_eq_true_eq]
    constructor
    · rintro ⟨-, hfalse⟩
      exact absurd hfalse (by simp)
    · rintro ⟨-, -, d, a, hd, -, -⟩
      obtain ⟨st, hst, -⟩ := hd.1
      rw [hemp] at hst
      exact absurd hst (List.not_mem_nil st)
  | some f =>
    cases hl : stLast (tripStopTimes db t.id) with
    | none =>
      exfalso
      have hemp : tripStopTimes db t.id = [] := selectMaxBy_eq_none_iff.mp hl
      have := selectMinBy_mem hf
      rw [hemp] at this
      exact List.not_mem_nil f this
    | some l =>
      simp only [matchesForRoute, hf, hl, Bool.and_eq_true, decide_eq_true_eq,
        ActiveForRouteSpec]
      constructor
      · rintro ⟨⟨hq, hr⟩, hd, ha⟩
        exact ⟨hasQualifyingEntry_iff.mp hq, hr, f.departureTime, l.arrivalTime,
          stFirst_isFirstDeparture hm hf, stLast_isLastArrival hm hl, hd, ha⟩
      · rintro ⟨hq, hr, d, a, hd, ha, h1, h2⟩
        have hde : f.departureTime = d :=
          isFirstDeparture_unique (stFirst_isFirstDeparture hm hf) hd
        have hae : l.arrivalTime = a :=
          isLastArrival_unique (stLast_isLastArrival hm hl) ha
        exact ⟨⟨hasQualifyingEntry_iff.mpr hq, hr⟩, hde ▸ h1, hae ▸ h2⟩

/-- FindActiveTripForRoute behaves as specified except for the tie
order: any returned trip id names a candidate trip of the route whose
interval test passes and whose first-departure is greatest among all
matches; none is returned exactly when no candidate matches.  Ties on
first-departure are resolved by the store's row order, not by trip
identifier. -/
def ActiveForRouteCorrect (db : Database) (indexIds : List Nat) (route : String)
    (svc : List String) (cur fromT : Int) : Prop :=
  (∀ tid, getActiveTripForRouteAtTime db indexIds route svc cur fromT = some tid →
    ∃ t ∈ db.trips, t.id = tid ∧ ActiveForRouteSpec db indexIds route svc cur fromT t ∧
      ∀ u ∈ db.trips, ActiveForRouteSpec db indexIds route svc cur fromT u →
        ∀ d du, IsFirstDeparture db t.id d → IsFirstDeparture db u.id du → du ≤ d) ∧
  ((∀ u ∈ db.trips, ¬ ActiveForRouteSpec db indexIds route svc cur fromT u) →
    getActiveTripForRouteAtTime db indexIds route svc cur fromT = none)

/-- C2 (amended): GetActiveTripForRouteAtTime treats a candidate trip
as a match exactly when first-departure <= currentTime and
last-arrival >= fromTime, and among all matches returns one with the
latest first-departure; the query imposes no trip-identifier
tie-break. -/
theorem getActiveTripForRouteAtTime_correct (db : Database) (indexIds : List Nat)
    (route : String) (svc : List String) (cur fromT : Int) (hm : SeqMonotone db) :
    ActiveForRouteCorrect db indexIds route svc cur fromT := by
  constructor
  · intro tid h
    unfold getActiveTripForRouteAtTime at h
    cases hsel : selectMaxBy (fun t => firstDepOf db t.id)
        (db.trips.filter (matchesForRoute db indexIds route svc cur fromT)) with
    | none => rw [hsel] at h; exact absurd h (by simp)
    | some t =>
      rw [hsel] at h
      have hid : t.id = tid := by simpa using h
      have htmem := selectMaxBy_mem hsel
      have hge := selectMaxBy_ge hsel
      have hfil := List.mem_filter.mp htmem
      refine ⟨t, hfil.1, hid, (matchesForRoute_iff hm).mp hfil.2, ?_⟩
      intro u hu huspec d du hd hdu
      have humatch : matchesForRoute db indexIds route svc cur fromT u = true :=
        (matchesForRoute_iff hm).mpr huspec
      have humem : u ∈ db.trips.filter (matchesForRoute db indexIds route svc cur fromT) :=
        List.mem_filter.mpr ⟨hu, humatch⟩
      have hk := hge u humem
      rw [firstDepOf_eq hm hd, firstDepOf_eq hm hdu] at hk
      exact hk
  · intro hnone
    unfold getActiveTripForRouteAtTime
    have hnil : db.trips.filter (matchesForRoute db indexIds route svc cur fromT) = [] := by
      apply List.filter_eq_nil_iff.mpr
      intro a ha hmatch
      exact hnone a ha ((matchesForRoute_iff hm).mp hmatch)
    rw [hnil]
    rfl

/-
Concrete data for the route query: the latest-start scenario and the
tie-break counterexample.
-/

def t28800 : String := "T28800"

def t29500 : String := "T29500"

def dbC2 : Database :=
  { trips := [{ id := t28800, routeId := rR1, serviceId := sS1, blockId := some bB1 },
              { id := t29500, routeId := rR1, serviceId := sS1, blockId := some bB1 }],
    stopTimes :=
      [{ tripId := t28800, stopId := stopX, stopSequence := 1, arrivalTime := 28800,
         departureTime := 28800 },
       { tripId := t28800, stopId := stopY, stopSequence := 2, arrivalTime := 30000,
         departureTime := 30000 },
       { tripId := t29500, stopId := stopX, stopSequence := 1, arrivalTime := 29500,
         departureTime := 29500 },
       { tripId := t29500, stopId := stopY, stopSequence := 2, arrivalTime := 30300,
         departureTime := 30300 }],
    calendars := [], calendarDates := [],
    blockTripEntries :=
      [{ blockTripIndexId := 1, tripId := t28800, blockId := bB1, serviceId := sS1,
         blockTripSequence := 0 },
       { blockTripIndexId := 1, tripId := t29500, blockId := bB1, serviceId := sS1,
         blockTripSequence := 1 }] }

/-- Witness for C2: on the scenario store both candidates (departing
28800 and 29500) match at currentTime 29600 with fromTime 29000, and
the query returns the trip departing 29500 (latest first-departure). -/
theorem getActiveTripForRouteAtTime_correct_witness :
    SeqMonotone dbC2 ∧ ActiveForRouteCorrect dbC2 [1] rR1 [sS1] 29600 29000 ∧
    matchesForRoute dbC2 [1] rR1 [sS1] 29600 29000 (dbC2.trips.get ⟨0, by decide⟩) = true ∧
    matchesForRoute dbC2 [1] rR1 [sS1] 29600 29000 (dbC2.trips.get ⟨1, by decide⟩) = true ∧
    getActiveTripForRouteAtTime dbC2 [1] rR1 [sS1] 29600 29000 = some t29500 :=
  ⟨by decide, getActiveTripForRouteAtTime_correct dbC2 [1] rR1 [sS1] 29600 29000 (by decide),
    by decide, by decide, by decide⟩

def tLoA : String := "a"

def tLoB : String := "b"

/-- The row-order trip (identifier b) stored before the
lexicographically smaller one (identifier a). -/
def tripTieB : Trip := { id := tLoB, routeId := rR1, serviceId := sS1, blockId := some bB1 }

def tripTieA : Trip := { id := tLoA, routeId := rR1, serviceId := sS1, blockId := some bB1 }

def dbTie : Database :=
  { trips := [tripTieB, tripTieA],
    stopTimes :=
      [{ tripId := tLoB, stopId := stopX, stopSequence := 1, arrivalTime := 100,
         departureTime := 100 },
       { tripId := tLoB, stopId := stopY, stopSequence := 2, arrivalTime := 200,
         departureTime := 200 },
       { tripId := tLoA, stopId := stopX, stopSequence := 1, arrivalTime := 100,
         departureTime := 100 },
       { tripId := tLoA, stopId := stopY, stopSequence := 2, arrivalTime := 200,
         departureTime := 200 }],
    calendars := [], calendarDates := [],
    blockTripEntries :=
      [{ blockTripIndexId := 7, tripId := tLoB, blockId := bB1, serviceId := sS1,
         blockTripSequence := 0 },
       { blockTripIndexId := 7, tripId := tLoA, blockId := bB1, serviceId := sS1,
         blockTripSequence := 1 }] }

/-- Counterexample to C2's tie-break clause: trips a and b both match
with the same first-departure 100, the trip identifier a (character
code 97) precedes b (character code 98) in ascending order, yet the
query returns b (the row stored first) — the ORDER BY of
GetActiveTripForRouteAtTime has no trip-identifier key, so ties are
not broken by trip identifier ascending. -/
theorem getActiveTripForRouteAtTime_tieOrder_cex :
    getActiveTripForRouteAtTime dbTie [7] rR1 [sS1] 150 120 = some tLoB ∧
    getActiveTripForRouteAtTime dbTie [7] rR1 [sS1] 150 120 ≠ some tLoA ∧
    matchesForRoute dbTie [7] rR1 [sS1] 150 120 tripTieA = true ∧
    matchesForRoute dbTie [7] rR1 [sS1] 150 120 tripTieB = true ∧
    firstDepOf dbTie tLoA = firstDepOf dbTie tLoB ∧
    (tLoA.data.map Char.toNat, tLoB.data.map Char.toNat) = ([97], [98]) := by
  refine ⟨by decide, by decide, by decide, by decide, by decide, by decide⟩

/-
ServiceCalendarResolver: removed and added exceptions.
-/

/-- C3: a service with a removed exception (exception_type = 2) for
the date never appears in GetActiveServiceIDsForDate's result, no
matter what its Calendar row says, as long as the store honours the
at-most-one-exception-per-(service, date) convention (no added row on
the same date). -/
theorem removedService_excluded (db : Database) (date : Nat) (s : String)
    (hrem : ∃ cd ∈ db.calendarDates,
      cd.serviceId = s ∧ cd.date = date ∧ cd.exceptionType = 2)
    (hnoadd : ∀ cd ∈ db.calendarDates,
      cd.serviceId = s → cd.date = date → cd.exceptionType ≠ 1) :
    s ∉ getActiveServiceIDsForDate db date := by
  intro hmem
  unfold getActiveServiceIDsForDate at hmem
  rw [List.mem_dedup, List.mem_append] at hmem
  rcases hmem with hbase | hadded
  · rcases List.mem_filter.mp hbase with ⟨-, hnotrem⟩
    have hnotrem2 : s ∉ (db.calendarDates.filter
        (fun cd => cd.date = date && cd.exceptionType = 2)).map
        (fun cd => cd.serviceId) := of_decide_eq_true hnotrem
    obtain ⟨cd, hcd, hsid, hdate, htype⟩ := hrem
    exact hnotrem2 (List.mem_map.mpr ⟨cd,
      List.mem_filter.mpr ⟨hcd, by simp [hdate, htype]⟩, hsid⟩)
  · rcases List.mem_map.mp hadded with ⟨cd, hcdmem, hsid⟩
    rcases List.mem_filter.mp hcdmem with ⟨hcd, hcond⟩
    have hcond2 : cd.date = date ∧ cd.exceptionType = 1 := by
      simpa using hcond
    exact hnoadd cd hcd hsid hcond2.1 hcond2.2

/-- C4: a service with an added exception (exception_type = 1) for the
date always appears in GetActiveServiceIDsForDate's result, regardless
of its Calendar rows. -/
theorem addedService_included (db : Database) (date : Nat) (s : String)
    (hadd : ∃ cd ∈ db.calendarDates,
      cd.serviceId = s ∧ cd.date = date ∧ cd.exceptionType = 1) :
    s ∈ getActiveServiceIDsForDate db date := by
  unfold getActiveServiceIDsForDate
  rw [List.mem_dedup, List.mem_append]
  right
  obtain ⟨cd, hcd, hsid, hdate, htype⟩ := hadd
  exact List.mem_map.mpr ⟨cd, List.mem_filter.mpr ⟨hcd, by simp [hdate, htype]⟩, hsid⟩

/-
Concrete calendar data: service s1 runs Mondays through 2025 and is
removed on Monday 2025-01-06; service s2 has no Calendar row and is
added on 2025-06-01.
-/

def sS2 : String := "s2"

def calS1 : Calendar :=
  { id := sS1, monday := true, tuesday := false, wednesday := false, thursday := false,
    friday := false, saturday := false, sunday := false,
    startDate := 20250101, endDate := 20251231 }

def dbC3 : Database :=
  { trips := [], stopTimes := [], calendars := [calS1],
    calendarDates := [{ serviceId := sS1, date := 20250106, exceptionType := 2 }],
    blockTripEntries := [] }

/-- Witness for C3: on the scenario store the removed exception exists
and no added exception interferes, so s1 is absent on Monday
2025-01-06 even though its Calendar row covers that Monday; the
following Monday it is active again. -/
theorem removedService_excluded_witness :
    (∃ cd ∈ dbC3.calendarDates,
      cd.serviceId = sS1 ∧ cd.date = 20250106 ∧ cd.exceptionType = 2) ∧
    (∀ cd ∈ dbC3.calendarDates,
      cd.serviceId = sS1 → cd.date = 20250106 → cd.exceptionType ≠ 1) ∧
    calS1.startDate ≤ 20250106 ∧ (20250106 : Nat) ≤ calS1.endDate ∧
    weekdayFlagSet calS1 (weekdayOfDate 20250106) = true ∧
    sS1 ∉ getActiveServiceIDsForDate dbC3 20250106 ∧
    getActiveServiceIDsForDate dbC3 20250113 = [sS1] :=
  ⟨by decide, by decide, by decide, by decide, by decide,
    removedService_excluded dbC3 20250106 sS1 (by decide) (by decide), by decide⟩

def dbC4 : Database :=
  { trips := [], stopTimes := [], calendars := [calS1],
    calendarDates := [{ serviceId := sS2, date := 20250601, exceptionType := 1 }],
    blockTripEntries := [] }

/-- Witness for C4: s2 has no Calendar row at all, yet its added
exception puts it in the active set for 2025-06-01. -/
theorem addedService_included_witness :
    (∃ cd ∈ dbC4.calendarDates,
      cd.serviceId = sS2 ∧ cd.date = 20250601 ∧ cd.exceptionType = 1) ∧
    (∀ c ∈ dbC4.calendars, c.id ≠ sS2) ∧
    sS2 ∈ getActiveServiceIDsForDate dbC4 20250601 :=
  ⟨by decide, by decide, addedService_included dbC4 20250601 sS2 (by decide)⟩

/-
ScheduleWindowQuery: GetStopTimesForStopInWindow.
-/

/-- C5: under referential integrity of stop_times.trip_id, the window
query returns exactly the stop's events whose arrival or departure
lies in the closed window (as a permutation of the matching rows),
ordered by arrival time ascending. -/
theorem getStopTimesForStopInWindow_correct (db : Database) (stop : String) (ws we : Int)
    (href : ∀ st ∈ db.stopTimes, ∃ t ∈ db.trips, t.id = st.tripId) :
    List.Perm (getStopTimesForStopInWindow db stop ws we)
      (db.stopTimes.filter (fun st => st.stopId = stop && inWindow ws we st)) ∧
    List.Pairwise (fun a b => a.arrivalTime ≤ b.arrivalTime)
      (getStopTimesForStopInWindow db stop ws we) := by
  constructor
  · unfold getStopTimesForStopInWindow
    have hfe : db.stopTimes.filter
        (fun st => st.stopId = stop && (hasTrip db st && inWindow ws we st)) =
        db.stopTimes.filter (fun st => st.stopId = stop && inWindow ws we st) := by
      apply List.filter_congr
      intro st hst
      have htr : hasTrip db st = true := by
        obtain ⟨t, ht, hid⟩ := href st hst
        exact List.any_eq_true.mpr ⟨t, ht, decide_eq_true hid⟩
      simp [htr]
    rw [hfe]
    exact perm_sortByKey _ _
  · unfold getStopTimesForStopInWindow
    exact pairwise_sortByKey _ _

def stopS : String := "S"

def stopZ : String := "Z"

def dbC5 : Database :=
  { trips := [{ id := tT1, routeId := rR1, serviceId := sS1, blockId := none }],
    stopTimes :=
      [{ tripId := tT1, stopId := stopS, stopSequence := 1, arrivalTime := 150,
         departureTime := 150 },
       { tripId := tT1, stopId := stopS, stopSequence := 2, arrivalTime := 300,
         departureTime := 300 },
       { tripId := tT1, stopId := stopS, stopSequence := 3, arrivalTime := 120,
         departureTime := 130 },
       { tripId := tT1, stopId := stopZ, stopSequence := 4, arrivalTime := 150,
         departureTime := 150 }],
    calendars := [], calendarDates := [], blockTripEntries := [] }

/-- Witness for C5: the scenario store satisfies referential
integrity, the contract holds on it, and the query on stop S with
window [100, 200] returns the two in-window events in arrival order
120, 150. -/
theorem getStopTimesForStopInWindow_correct_witness :
    (∀ st ∈ dbC5.stopTimes, ∃ t ∈ dbC5.trips, t.id = st.tripId) ∧
    (List.Perm (getStopTimesForStopInWindow dbC5 stopS 100 200)
      (dbC5.stopTimes.filter (fun st => st.stopId = stopS && inWindow 100 200 st)) ∧
     List.Pairwise (fun a b => a.arrivalTime ≤ b.arrivalTime)
      (getStopTimesForStopInWindow dbC5 stopS 100 200)) ∧
    (getStopTimesForStopInWindow dbC5 stopS 100 200).map (fun st => st.arrivalTime) =
      [120, 150] :=
  ⟨by decide, getStopTimesForStopInWindow_correct dbC5 stopS 100 200 (by decide),
    by decide⟩

/-
GetArrivalsAndDeparturesForStop: the undocumented LIMIT 50.
-/

/-- C10: the arrivals-and-departures query returns at most 50 events,
in arrival-time order, all of them stop events of the requested stop;
and whenever one of the stop's (joined) events is left out, exactly 50
were returned and every returned arrival is no later than the omitted
one — the result is the first 50 events in arrival-time order. -/
theorem getArrivalsAndDeparturesForStop_cap (db : Database) (stop : String) :
    (getArrivalsAndDeparturesForStop db stop).length ≤ 50 ∧
    List.Pairwise (fun a b => a.arrivalTime ≤ b.arrivalTime)
      (getArrivalsAndDeparturesForStop db stop) ∧
    (∀ x ∈ getArrivalsAndDeparturesForStop db stop,
      x ∈ db.stopTimes ∧ x.stopId = stop) ∧
    (∀ y ∈ db.stopTimes, y.stopId = stop → (∃ t ∈ db.trips, t.id = y.tripId) →
      y ∉ getArrivalsAndDeparturesForStop db stop →
      (getArrivalsAndDeparturesForStop db stop).length = 50 ∧
      ∀ x ∈ getArrivalsAndDeparturesForStop db stop,
        x.arrivalTime ≤ y.arrivalTime) := by
  unfold getArrivalsAndDeparturesForStop
  set base := db.stopTimes.filter (fun st => st.stopId = stop && hasTrip db st) with hbase
  set srt := sortByKey (fun st => st.arrivalTime) base with hsrt
  have hperm : List.Perm srt base := perm_sortByKey _ _
  have hpair : List.Pairwise (fun a b => a.arrivalTime ≤ b.arrivalTime) srt :=
    pairwise_sortByKey _ _
  refine ⟨?_, ?_, ?_, ?_⟩
  · rw [List.length_take]
    exact min_le_left _ _
  · exact hpair.sublist (List.take_sublist _ _)
  · intro x hx
    have hxs : x ∈ srt := List.mem_of_mem_take hx
    have hxb : x ∈ base := hperm.mem_iff.mp hxs
    rcases List.mem_filter.mp hxb with ⟨hxdb, hcond⟩
    have hcond2 : x.stopId = stop ∧ hasTrip db x = true := by simpa using hcond
    exact ⟨hxdb, hcond2.1⟩
  · intro y hy hystop hytrip hynot
    have hytr : hasTrip db y = true := by
      obtain ⟨t, ht, hid⟩ := hytrip
      exact List.any_eq_true.mpr ⟨t, ht, decide_eq_true hid⟩
    have hyb : y ∈ base := List.mem_filter.mpr ⟨hy, by simp [hystop, hytr]⟩
    have hys : y ∈ srt := hperm.mem_iff.mpr hyb
    have hlong : 50 < srt.length := by
      by_contra hle
      push_neg at hle
      rw [List.take_of_length_le hle] at hynot
      exact hynot hys
    constructor
    · rw [List.length_take]
      omega
    · intro x hx
      have hsplit : srt.take 50 ++ srt.drop 50 = srt := List.take_append_drop 50 srt
      have hpair2 : List.Pairwise (fun a b => a.arrivalTime ≤ b.arrivalTime)
          (srt.take 50 ++ srt.drop 50) := by
        rw [hsplit]
        exact hpair
      have hacross := (List.pairwise_append.mp hpair2).2.2
      have hydrop : y ∈ srt.drop 50 := by
        have : y ∈ srt.take 50 ++ srt.drop 50 := by rw [hsplit]; exact hys
        rcases List.mem_append.mp this with h1 | h2
        · exact absurd h1 hynot
        · exact h2
      exact hacross x hx y hydrop

def tripC10 : Trip := { id := tT1, routeId := rR1, serviceId := sS1, blockId := none }

/-- The i-th scenario event at stop S: arrival and departure i seconds
after midnight. -/
def mkStopEvent (i : Nat) : StopTime :=
  { tripId := tT1, stopId := stopS, stopSequence := i, arrivalTime := (i : Int),
    departureTime := (i : Int) }

def dbC10 : Database :=
  { trips := [tripC10], stopTimes := (List.range 51).map mkStopEvent,
    calendars := [], calendarDates := [], blockTripEntries := [] }

/-- Witness for C10: with 51 matching events at the stop, the event
arriving last is omitted, exactly 50 events are returned, and every
returned arrival precedes the omitted one. -/
theorem getArrivalsAndDeparturesForStop_cap_witness :
    (mkStopEvent 50 ∈ dbC10.stopTimes ∧ (mkStopEvent 50).stopId = stopS ∧
      (∃ t ∈ dbC10.trips, t.id = (mkStopEvent 50).tripId) ∧
      mkStopEvent 50 ∉ getArrivalsAndDeparturesForStop dbC10 stopS) ∧
    ((getArrivalsAndDeparturesForStop dbC10 stopS).length = 50 ∧
      ∀ x ∈ getArrivalsAndDeparturesForStop dbC10 stopS,
        x.arrivalTime ≤ (mkStopEvent 50).arrivalTime) :=
  ⟨⟨by decide, by decide, by decide, by decide⟩,
    (getArrivalsAndDeparturesForStop_cap dbC10 stopS).2.2.2 (mkStopEvent 50)
      (by decide) (by decide) (by decide) (by decide)⟩

/-
BlockTripIndexBuilder.  Modelled from the spec: the Go implementation
of Rebuild is not among the sources here; only its store statements
(CreateBlockTripIndex, CreateBlockTripEntry, ClearBlockTripEntries,
ClearBlockTripIndices, GetTripsByBlockIDOrdered) are.  The builder
below follows the design document's algorithm: group indexable trips
by (block id, stop-sequence fingerprint), one index row per group with
the union of member service ids, and within each (group, service id)
order members by first departure, assigning block_trip_sequence
0, 1, 2, ...
-/

/-- Modelled from the spec: the structural fingerprint of a trip —
its stop ids in stop_sequence order. -/
def stopSequenceKey (db : Database) (tid : String) : List String :=
  (sortByKey (fun st => st.stopSequence) (tripStopTimes db tid)).map (fun st => st.stopId)

def blockIdValue : Option String → String
  | some b => b
  | none => ""

/-- Modelled from the spec: trips with a null or empty block
identifier are excluded from indexing. -/
def isIndexable (t : Trip) : Bool :=
  match t.blockId with
  | some b => b ≠ ""
  | none => false

def blockedTrips (db : Database) : List Trip := db.trips.filter isIndexable

/-- The grouping key of an indexable trip: block identifier combined
with the structural fingerprint. -/
def groupKeyOf (db : Database) (t : Trip) : String × List String :=
  (blockIdValue t.blockId, stopSequenceKey db t.id)

def groupKeys (db : Database) : List (String × List String) :=
  ((blockedTrips db).map (groupKeyOf db)).dedup

def groupMembers (db : Database) (k : String × List String) : List Trip :=
  (blockedTrips db).filter (fun t => groupKeyOf db t = k)

def groupServiceIds (db : Database) (k : String × List String) : List String :=
  ((groupMembers db k).map (fun t => t.serviceId)).dedup

/-- A block_trip_index row: generated id, index key, union of member
service ids, stop-sequence fingerprint and creation timestamp. -/
structure BlockTripIndexRow where
  rowId : Nat
  indexKey : String × List String
  serviceIds : List String
  stopSeqKey : List String
  createdAt : Int
deriving DecidableEq, Repr

/-- Modelled from the spec: the entries of one (group, service id)
pair — members ordered by first departure (MIN(st.departure_time), as
GetTripsByBlockIDOrdered orders them), with block_trip_sequence
assigned 0, 1, 2, ... -/
def entriesForGroupService (db : Database) (idx : Nat) (k : String × List String)
    (s : String) : List BlockTripEntryRow :=
  (withIdx 0 (sortByKey (fun t => minDepOf db t.id)
      ((groupMembers db k).filter (fun t => t.serviceId = s)))).map
    (fun p => { blockTripIndexId := idx, tripId := p.2.id, blockId := k.1,
                serviceId := s, blockTripSequence := p.1 })

def entriesForGroup (db : Database) (idx : Nat) (k : String × List String) :
    List BlockTripEntryRow :=
  (groupServiceIds db k).flatMap (fun s => entriesForGroupService db idx k s)

/-- Modelled from the spec: all block_trip_entry rows produced by one
Rebuild over the current Trip/StopTime contents. -/
def buildEntries (db : Database) : List BlockTripEntryRow :=
  (withIdx 0 (groupKeys db)).flatMap (fun p => entriesForGroup db p.1 p.2)

/-- Modelled from the spec: all block_trip_index rows produced by one
Rebuild, with deterministically assigned generated ids and the
caller-supplied creation timestamp. -/
def buildIndexRows (db : Database) (now : Int) : List BlockTripIndexRow :=
  (withIdx 0 (groupKeys db)).map (fun p =>
    { rowId := p.1, indexKey := p.2, serviceIds := groupServiceIds db p.2,
      stopSeqKey := p.2.2, createdAt := now })

/-- The persisted derived state: block_trip_index and block_trip_entry
row sets. -/
structure IndexState where
  indices : List BlockTripIndexRow
  entries : List BlockTripEntryRow
deriving DecidableEq, Repr

/-- Modelled from the spec: Rebuild discards all existing
BlockTripEntry and BlockTripIndex rows and recomputes both from the
current Trip/StopTime contents. -/
def rebuild (db : Database) (now : Int) (_prev : IndexState) : IndexState :=
  { indices := buildIndexRows db now, entries := buildEntries db }

/-- C6: Rebuild is idempotent — for fixed Trip/StopTime contents (and
a fixed rebuild timestamp) a second Rebuild reproduces every row of
every column byte for byte, and the output never depends on the index
rows previously in place. -/
theorem rebuild_idempotent (db : Database) (now : Int) (s1 s2 : IndexState) :
    rebuild db now (rebuild db now s1) = rebuild db now s1 ∧
    rebuild db now s1 = rebuild db now s2 :=
  ⟨rfl, rfl⟩

/-
Failure semantics of Rebuild (C8): the clear-then-repopulate sequence
as a list of store operations run inside one all-or-nothing unit.
-/

/-- One store operation of the rebuild sequence. -/
inductive IndexOp where
  | clearEntries
  | clearIndices
  | insertIndex (r : BlockTripIndexRow)
  | insertEntry (e : BlockTripEntryRow)
deriving DecidableEq, Repr

def applyOp (s : IndexState) : IndexOp → IndexState
  | IndexOp.clearEntries => { s with entries := [] }
  | IndexOp.clearIndices => { s with indices := [] }
  | IndexOp.insertIndex r => { s with indices := s.indices ++ [r] }
  | IndexOp.insertEntry e => { s with entries := s.entries ++ [e] }

/-- The store operations of one Rebuild, in order: clear entries, then
clear indices (entries before indices for the foreign key), then all
inserts. -/
def rebuildOps (db : Database) (now : Int) : List IndexOp :=
  [IndexOp.clearEntries, IndexOp.clearIndices] ++
    (buildIndexRows db now).map IndexOp.insertIndex ++
    (buildEntries db).map IndexOp.insertEntry

/-- Modelled from the spec: the clear-then-repopulate sequence runs in
a transaction (an all-or-nothing unit); failAt = some k injects a
store failure at the k-th operation, aborting and rolling back the
whole unit. -/
def runRebuildUnit (db : Database) (now : Int) (failAt : Option Nat) (s : IndexState) :
    Option IndexState :=
  match failAt with
  | some k =>
    if k < (rebuildOps db now).length then none
    else some ((rebuildOps db now).foldl applyOp s)
  | none => some ((rebuildOps db now).foldl applyOp s)

/-- The index rows visible in the store after a Rebuild attempt: the
unit's result on success, the prior rows on failure. -/
def storeAfterRebuild (db : Database) (now : Int) (failAt : Option Nat)
    (s : IndexState) : IndexState :=
  match runRebuildUnit db now failAt s with
  | some s2 => s2
  | none => s

theorem foldl_insertIndex (rs : List BlockTripIndexRow) (s : IndexState) :
    (rs.map IndexOp.insertIndex).foldl applyOp s = { s with indices := s.indices ++ rs } := by
  induction rs generalizing s with
  | nil => simp
  | cons r rest ih =>
    simp only [List.map_cons, List.foldl_cons, applyOp, ih, List.append_assoc,
      List.singleton_append]

theorem foldl_insertEntry (es : List BlockTripEntryRow) (s : IndexState) :
    (es.map IndexOp.insertEntry).foldl applyOp s = { s with entries := s.entries ++ es } := by
  induction es generalizing s with
  | nil => simp
  | cons e rest ih =>
    simp only [List.map_cons, List.foldl_cons, applyOp, ih, List.append_assoc,
      List.singleton_append]

theorem rebuildOps_run (db : Database) (now : Int) (s : IndexState) :
    (rebuildOps db now).foldl applyOp s = rebuild db now s := by
  unfold rebuildOps
  rw [List.foldl_append, List.foldl_append]
  simp only [List.foldl_cons, List.foldl_nil, applyOp, foldl_insertIndex,
    foldl_insertEntry, List.nil_append]
  rfl

/-- C8: a Rebuild that fails partway (at any operation of the
clear-and-repopulate sequence) leaves the previously built
BlockTripIndex/BlockTripEntry rows exactly intact, and a Rebuild that
completes installs exactly the recomputed rows — the unit is
all-or-nothing. -/
theorem rebuild_allOrNothing (db : Database) (now : Int) (s : IndexState) :
    (∀ k, k < (rebuildOps db now).length →
      storeAfterRebuild db now (some k) s = s) ∧
    storeAfterRebuild db now none s = rebuild db now s := by
  constructor
  · intro k hk
    have h1 : runRebuildUnit db now (some k) s = none := by
      show (if k < (rebuildOps db now).length then none
        else some ((rebuildOps db now).foldl applyOp s)) = none
      rw [if_pos hk]
    unfold storeAfterRebuild
    rw [h1]
  · have h2 : runRebuildUnit db now none s = some (rebuild db now s) := by
      show some ((rebuildOps db now).foldl applyOp s) = some (rebuild db now s)
      rw [rebuildOps_run]
    unfold storeAfterRebuild
    rw [h2]

/-- A previously built index state, used to exhibit the rollback. -/
def preRow : BlockTripIndexRow :=
  { rowId := 0, indexKey := (bB1, [stopX, stopY]), serviceIds := [sS1],
    stopSeqKey := [stopX, stopY], createdAt := 5 }

def preEntry : BlockTripEntryRow :=
  { blockTripIndexId := 0, tripId := tT1, blockId := bB1, serviceId := sS1,
    blockTripSequence := 0 }

def preBuilt : IndexState := { indices := [preRow], entries := [preEntry] }

/-- Witness for C8: the rebuild sequence over the scenario store has
operations to fail at, and failing at the very first (the entry
clear) leaves the previously built rows untouched. -/
theorem rebuild_allOrNothing_witness :
    0 < (rebuildOps dbC1 0).length ∧
    storeAfterRebuild dbC1 0 (some 0) preBuilt = preBuilt :=
  ⟨by decide, (rebuild_allOrNothing dbC1 0 preBuilt).1 0 (by decide)⟩

/-
C7: the per-(block, service) shape of the built entries.
-/

/-- The built block_trip_entry rows of one (block id, service id)
pair, in output order. -/
def entriesFor (db : Database) (b s : String) : List BlockTripEntryRow :=
  (buildEntries db).filter (fun e => e.blockId = b && e.serviceId = s)

/-- The indexable trips of one (block id, service id) pair. -/
def pairTrips (db : Database) (b s : String) : List Trip :=
  (blockedTrips db).filter (fun t => blockIdValue t.blockId = b && t.serviceId = s)

/-- Two trips' [first-departure, last-arrival] intervals are
disjoint. -/
abbrev TripDisjoint (db : Database) (t u : Trip) : Prop :=
  maxArrOf db t.id < minDepOf db u.id ∨ maxArrOf db u.id < minDepOf db t.id

theorem entriesForGroupService_fields {db : Database} {idx : Nat}
    {k : String × List String} {s : String} {e : BlockTripEntryRow}
    (h : e ∈ entriesForGroupService db idx k s) : e.blockId = k.1 ∧ e.serviceId = s := by
  rcases List.mem_map.mp h with ⟨p, -, rfl⟩
  exact ⟨rfl, rfl⟩

theorem entriesForGroupService_eq_nil {db : Database} {idx : Nat}
    {k : String × List String} {s : String}
    (h : (groupMembers db k).filter (fun t => t.serviceId = s) = []) :
    entriesForGroupService db idx k s = [] := by
  unfold entriesForGroupService
  rw [h]
  rfl

theorem filter_pair_entriesForGroupService (db : Database) (b s : String) (idx : Nat)
    (k2 : String × List String) (s2 : String) :
    (entriesForGroupService db idx k2 s2).filter
        (fun e => e.blockId = b && e.serviceId = s) =
      if k2.1 = b ∧ s2 = s then entriesForGroupService db idx k2 s2 else [] := by
  by_cases h : k2.1 = b ∧ s2 = s
  · rw [if_pos h]
    apply List.filter_eq_self.mpr
    intro e he
    have hf := entriesForGroupService_fields he
    simp [hf.1, hf.2, h.1, h.2]
  · rw [if_neg h]
    apply List.filter_eq_nil_iff.mpr
    intro e he
    have hf := entriesForGroupService_fields he
    simp only [Bool.and_eq_true, decide_eq_true_eq, not_and]
    intro hbl hsv
    exact h ⟨hf.1 ▸ hbl, hf.2 ▸ hsv⟩

theorem mem_pairTrips {db : Database} {b s : String} {t : Trip} :
    t ∈ pairTrips db b s ↔
      t ∈ blockedTrips db ∧ blockIdValue t.blockId = b ∧ t.serviceId = s := by
  simp [pairTrips, and_assoc]

theorem mem_groupMembers {db : Database} {k : String × List String} {t : Trip} :
    t ∈ groupMembers db k ↔ t ∈ blockedTrips db ∧ groupKeyOf db t = k := by
  simp [groupMembers]


theorem flatMap_if_single {β : Type} (F : String → List β) (s : String) :
    ∀ ss : List String, ss.Nodup → (s ∉ ss → F s = []) →
      ss.flatMap (fun x => if x = s then F x else []) = F s := by
  intro ss
  induction ss with
  | nil =>
    intro _ hFe
    simp only [List.flatMap_nil]
    exact (hFe (by simp)).symm
  | cons a t2 ih =>
    intro hnd hFe
    rcases List.nodup_cons.mp hnd with ⟨hna, hnd2⟩
    by_cases ha : a = s
    · subst ha
      have htail : t2.flatMap (fun x => if x = a then F x else []) = [] := by
        apply List.flatMap_eq_nil_iff.mpr
        intro x hx
        rw [if_neg]
        intro hxa
        exact hna (hxa ▸ hx)
      rw [List.flatMap_cons, if_pos rfl, htail, List.append_nil]
    · rw [List.flatMap_cons, if_neg ha, List.nil_append]
      apply ih hnd2
      intro hnm
      apply hFe
      intro hmem
      rcases List.mem_cons.mp hmem with h1 | h2
      · exact ha h1.symm
      · exact hnm h2

theorem filter_pair_entriesForGroup (db : Database) (b s : String) (k : List String)
    (hkey : ∀ t ∈ pairTrips db b s, stopSequenceKey db t.id = k)
    (idx : Nat) (k2 : String × List String) :
    (entriesForGroup db idx k2).filter (fun e => e.blockId = b && e.serviceId = s) =
      if k2 = (b, k) then entriesForGroupService db idx k2 s else [] := by
  unfold entriesForGroup
  rw [List.filter_flatMap]
  have hstep : (fun s2 => (entriesForGroupService db idx k2 s2).filter
      (fun e => e.blockId = b && e.serviceId = s)) =
      (fun s2 => if k2.1 = b ∧ s2 = s then entriesForGroupService db idx k2 s2 else []) :=
    funext (fun s2 => filter_pair_entriesForGroupService db b s idx k2 s2)
  rw [hstep]
  by_cases hk : k2 = (b, k)
  · rw [if_pos hk]
    have hb1 : k2.1 = b := by rw [hk]
    have hred : (fun s2 => if k2.1 = b ∧ s2 = s
        then entriesForGroupService db idx k2 s2 else []) =
        (fun s2 => if s2 = s then entriesForGroupService db idx k2 s2 else []) := by
      funext s2
      by_cases hs2 : s2 = s
      · rw [if_pos ⟨hb1, hs2⟩, if_pos hs2]
      · rw [if_neg (fun hc => hs2 hc.2), if_neg hs2]
    rw [hred]
    have hnd : (groupServiceIds db k2).Nodup := List.nodup_dedup _
    have hFe : s ∉ groupServiceIds db k2 → entriesForGroupService db idx k2 s = [] := by
      intro hnm
      apply entriesForGroupService_eq_nil
      apply List.filter_eq_nil_iff.mpr
      intro t ht hsv
      apply hnm
      unfold groupServiceIds
      rw [List.mem_dedup]
      exact List.mem_map.mpr ⟨t, ht, of_decide_eq_true hsv⟩
    exact flatMap_if_single (fun s2 => entriesForGroupService db idx k2 s2) s
      (groupServiceIds db k2) hnd hFe
  · rw [if_neg hk]
    apply List.flatMap_eq_nil_iff.mpr
    intro s2 hs2
    by_cases hcond : k2.1 = b ∧ s2 = s
    · rw [if_pos hcond]
      apply entriesForGroupService_eq_nil
      apply List.filter_eq_nil_iff.mpr
      intro t ht hsv
      rcases mem_groupMembers.mp ht with ⟨hbt, hgk⟩
      have hsv2 : t.serviceId = s := hcond.2 ▸ of_decide_eq_true hsv
      have htp : t ∈ pairTrips db b s := by
        apply mem_pairTrips.mpr
        refine ⟨hbt, ?_, hsv2⟩
        rw [show blockIdValue t.blockId = k2.1 from congrArg Prod.fst hgk]
        exact hcond.1
      have hsk : stopSequenceKey db t.id = k := hkey t htp
      apply hk
      have h2 : stopSequenceKey db t.id = k2.2 := congrArg Prod.snd hgk
      have hb2 : k2.1 = b := hcond.1
      cases k2 with
      | mk kb kk =>
        simp only at h2 hb2
        rw [hb2, ← h2, hsk]
    · rw [if_neg hcond]

theorem entriesFor_eq (db : Database) (b s : String) (k : List String)
    (hkey : ∀ t ∈ pairTrips db b s, stopSequenceKey db t.id = k) :
    entriesFor db b s = [] ∨
      ∃ idx, entriesFor db b s = entriesForGroupService db idx (b, k) s := by
  unfold entriesFor buildEntries
  rw [List.filter_flatMap]
  have hstep : (fun p : Nat × (String × List String) =>
      (entriesForGroup db p.1 p.2).filter (fun e => e.blockId = b && e.serviceId = s)) =
      (fun p => if p.2 = (b, k) then entriesForGroupService db p.1 p.2 s else []) :=
    funext (fun p => filter_pair_entriesForGroup db b s k hkey p.1 p.2)
  rw [hstep]
  have hnd : ((withIdx 0 (groupKeys db)).map Prod.snd).Nodup := by
    rw [withIdx_map_snd]
    exact List.nodup_dedup _
  generalize withIdx 0 (groupKeys db) = ps at hnd ⊢
  induction ps with
  | nil => exact Or.inl rfl
  | cons p t2 ih =>
    rw [List.map_cons] at hnd
    rcases List.nodup_cons.mp hnd with ⟨hnp, hnd2⟩
    by_cases hp : p.2 = (b, k)
    · right
      refine ⟨p.1, ?_⟩
      rw [List.flatMap_cons, if_pos hp]
      have htail : t2.flatMap (fun q => if q.2 = (b, k)
          then entriesForGroupService db q.1 q.2 s else []) = [] := by
        apply List.flatMap_eq_nil_iff.mpr
        intro q hq
        rw [if_neg]
        intro hq2
        exact hnp (List.mem_map.mpr ⟨q, hq, hq2.trans hp.symm⟩)
      rw [htail, List.append_nil, hp]
    · rw [List.flatMap_cons, if_neg hp, List.nil_append]
      exact ih hnd2

theorem entriesForGroupService_seq (db : Database) (idx : Nat)
    (k : String × List String) (s : String) :
    (entriesForGroupService db idx k s).map (fun e => e.blockTripSequence) =
      List.range (entriesForGroupService db idx k s).length := by
  unfold entriesForGroupService
  rw [List.map_map, List.length_map, withIdx_length, List.range_eq_range']
  exact withIdx_map_fst 0 _

theorem entriesForGroupService_pairwise (db : Database) (idx : Nat)
    (k : String × List String) (s : String) :
    List.Pairwise (fun e1 e2 => minDepOf db e1.tripId ≤ minDepOf db e2.tripId)
      (entriesForGroupService db idx k s) := by
  unfold entriesForGroupService
  rw [List.pairwise_map]
  exact pairwise_withIdx_snd 0 (pairwise_sortByKey (fun t : Trip => minDepOf db t.id) _)

theorem entriesForGroupService_chain (db : Database) (idx : Nat) (b s : String)
    (k : List String)
    (hdisj : List.Pairwise (TripDisjoint db) (pairTrips db b s))
    (hwell : ∀ t ∈ pairTrips db b s, minDepOf db t.id ≤ maxArrOf db t.id) :
    List.Chain' (fun e1 e2 => maxArrOf db e1.tripId < minDepOf db e2.tripId)
      (entriesForGroupService db idx (b, k) s) := by
  have hsub : ((groupMembers db (b, k)).filter (fun t => t.serviceId = s)).Sublist
      (pairTrips db b s) := by
    unfold groupMembers pairTrips
    rw [List.filter_filter]
    apply List.monotone_filter_right
    intro t ht
    simp only [Bool.and_eq_true, decide_eq_true_eq] at ht ⊢
    exact ⟨congrArg Prod.fst ht.2, ht.1⟩
  set msf := (groupMembers db (b, k)).filter (fun t => t.serviceId = s) with hmsf
  have hdisj2 : List.Pairwise (TripDisjoint db) msf := hdisj.sublist hsub
  have hperm := perm_sortByKey (fun t => minDepOf db t.id) msf
  have hsymm : ∀ {x y : Trip}, TripDisjoint db x y → TripDisjoint db y x :=
    fun h => h.symm
  have hdisj3 : List.Pairwise (TripDisjoint db)
      (sortByKey (fun t => minDepOf db t.id) msf) :=
    (List.Perm.pairwise_iff hsymm hperm).mpr hdisj2
  have hle : List.Pairwise (fun t u : Trip => minDepOf db t.id ≤ minDepOf db u.id)
      (sortByKey (fun t => minDepOf db t.id) msf) := pairwise_sortByKey _ _
  have hcomb := hle.and hdisj3
  have hstrict : List.Pairwise (fun t u : Trip => maxArrOf db t.id < minDepOf db u.id)
      (sortByKey (fun t => minDepOf db t.id) msf) := by
    refine List.Pairwise.imp_of_mem ?_ hcomb
    intro a c ha hc hr
    rcases hr with ⟨hle2, h1 | h2⟩
    · exact h1
    · exfalso
      have hcmem : c ∈ pairTrips db b s := hsub.subset (hperm.mem_iff.mp hc)
      have hwc := hwell c hcmem
      exact absurd ((hwc.trans_lt h2).trans_le hle2) (lt_irrefl _)
  unfold entriesForGroupService
  apply List.Pairwise.chain'
  rw [List.pairwise_map]
  exact pairwise_withIdx_snd 0 hstrict

/-- C7 (amended): after a Rebuild, for every (block id, service id)
pair whose indexable trips all share one stop-sequence fingerprint and
whose [first-departure, last-arrival] intervals are pairwise disjoint
(with each trip's first-departure at most its last-arrival), the
pair's block_trip_entry rows carry block_trip_sequence values exactly
0, 1, ..., n-1 in order of non-decreasing first-departure, and the
intervals of successive rows never overlap.  (When the pair's trips
span several stop patterns the sequence numbering restarts per
pattern, and overlapping input trips yield overlapping rows — see
the counterexample.) -/
theorem blockTripSequence_invariant (db : Database) (b s : String) (k : List String)
    (hkey : ∀ t ∈ pairTrips db b s, stopSequenceKey db t.id = k)
    (hdisj : List.Pairwise (TripDisjoint db) (pairTrips db b s))
    (hwell : ∀ t ∈ pairTrips db b s, minDepOf db t.id ≤ maxArrOf db t.id) :
    ((entriesFor db b s).map (fun e => e.blockTripSequence) =
      List.range (entriesFor db b s).length) ∧
    List.Pairwise (fun e1 e2 => minDepOf db e1.tripId ≤ minDepOf db e2.tripId)
      (entriesFor db b s) ∧
    List.Chain' (fun e1 e2 => maxArrOf db e1.tripId < minDepOf db e2.tripId)
      (entriesFor db b s) := by
  rcases entriesFor_eq db b s k hkey with h | ⟨idx, h⟩ <;> rw [h]
  · exact ⟨rfl, List.Pairwise.nil, List.chain'_nil⟩
  · exact ⟨entriesForGroupService_seq db idx (b, k) s,
      entriesForGroupService_pairwise db idx (b, k) s,
      entriesForGroupService_chain db idx b s k hdisj hwell⟩

def uT1 : String := "U1"

def uT2 : String := "U2"

def uT3 : String := "U3"

/-- A store violating C7's unconditional reading: block B1, service
s1, trips U1 [0, 100] and U2 [50, 150] share the stop pattern X, Y and
overlap in time; trip U3 [300, 300] has the distinct pattern Z. -/
def dbC7x : Database :=
  { trips := [{ id := uT1, routeId := rR1, serviceId := sS1, blockId := some bB1 },
              { id := uT2, routeId := rR1, serviceId := sS1, blockId := some bB1 },
              { id := uT3, routeId := rR1, serviceId := sS1, blockId := some bB1 }],
    stopTimes :=
      [{ tripId := uT1, stopId := stopX, stopSequence := 0, arrivalTime := 0,
         departureTime := 0 },
       { tripId := uT1, stopId := stopY, stopSequence := 1, arrivalTime := 100,
         departureTime := 100 },
       { tripId := uT2, stopId := stopX, stopSequence := 0, arrivalTime := 50,
         departureTime := 50 },
       { tripId := uT2, stopId := stopY, stopSequence := 1, arrivalTime := 150,
         departureTime := 150 },
       { tripId := uT3, stopId := stopZ, stopSequence := 0, arrivalTime := 300,
         departureTime := 300 }],
    calendars := [], calendarDates := [], blockTripEntries := [] }

/-- Counterexample to C7 as stated: on dbC7x the (B1, s1) pair's
entry rows carry block_trip_sequence values 0, 1, 0 — neither
contiguous nor strictly increasing, because the numbering restarts for
the second stop pattern — and the successive rows for U1 and U2 have
overlapping intervals (U2 departs at 50 before U1's last arrival
100). -/
theorem blockTripSequence_cex :
    (entriesFor dbC7x bB1 sS1).map (fun e => e.blockTripSequence) = [0, 1, 0] ∧
    (entriesFor dbC7x bB1 sS1).map (fun e => e.tripId) = [uT1, uT2, uT3] ∧
    minDepOf dbC7x uT2 < maxArrOf dbC7x uT1 ∧
    minDepOf dbC7x uT1 ≤ minDepOf dbC7x uT2 := by
  refine ⟨by decide, by decide, by decide, by decide⟩

def vT1 : String := "V1"

def vT2 : String := "V2"

/-- A well-formed single-pattern store: block B1, service s1, trips
V1 [0, 100] and V2 [200, 300], both over stops X, Y. -/
def dbC7w : Database :=
  { trips := [{ id := vT1, routeId := rR1, serviceId := sS1, blockId := some bB1 },
              { id := vT2, routeId := rR1, serviceId := sS1, blockId := some bB1 }],
    stopTimes :=
      [{ tripId := vT1, stopId := stopX, stopSequence := 0, arrivalTime := 0,
         departureTime := 0 },
       { tripId := vT1, stopId := stopY, stopSequence := 1, arrivalTime := 100,
         departureTime := 100 },
       { tripId := vT2, stopId := stopX, stopSequence := 0, arrivalTime := 200,
         departureTime := 200 },
       { tripId := vT2, stopId := stopY, stopSequence := 1, arrivalTime := 300,
         departureTime := 300 }],
    calendars := [], calendarDates := [], blockTripEntries := [] }

/-- Witness for C7: dbC7w satisfies the single-pattern and
disjointness hypotheses, the invariant holds on it, and its (B1, s1)
entries are V1 then V2 with sequences 0, 1. -/
theorem blockTripSequence_invariant_witness :
    (∀ t ∈ pairTrips dbC7w bB1 sS1, stopSequenceKey dbC7w t.id = [stopX, stopY]) ∧
    List.Pairwise (TripDisjoint dbC7w) (pairTrips dbC7w bB1 sS1) ∧
    (∀ t ∈ pairTrips dbC7w bB1 sS1, minDepOf dbC7w t.id ≤ maxArrOf dbC7w t.id) ∧
    (((entriesFor dbC7w bB1 sS1).map (fun e => e.blockTripSequence) =
        List.range (entriesFor dbC7w bB1 sS1).length) ∧
      List.Pairwise (fun e1 e2 => minDepOf dbC7w e1.tripId ≤ minDepOf dbC7w e2.tripId)
        (entriesFor dbC7w bB1 sS1) ∧
      List.Chain' (fun e1 e2 => maxArrOf dbC7w e1.tripId < minDepOf dbC7w e2.tripId)
        (entriesFor dbC7w bB1 sS1)) ∧
    (entriesFor dbC7w bB1 sS1).map (fun e => e.tripId) = [vT1, vT2] ∧
    (entriesFor dbC7w bB1 sS1).map (fun e => e.blockTripSequence) = [0, 1] :=
  ⟨by decide, by decide, by decide,
    blockTripSequence_invariant dbC7w bB1 sS1 [stopX, stopY] (by decide) (by decide)
      (by decide),
    by decide, by decide⟩
